import Mathlib

/-!
Verification of the viral-filter-analysis sequence-ingestion core.

This file shallowly embeds the repository's Python core
(`utils/gisaid_parser.py`, `utils/vectorized_filters.py`,
`utils/peak_detector.py`, `utils/adaptive_sampler.py`) as executable Lean
definitions and proves the frozen specification claims about them.

Modelling conventions:
* Python strings are Lean `String` (logically `List Char`); `str.strip`
  trims `Char.isWhitespace` characters (the Python definition also strips a
  few rare control characters, which no claim exercises).
* `pandas` Timestamps are calendar dates `PDate` (the parser only ever
  produces midnight timestamps); differences in days go through the
  standard civil-from-days day count `days_from_civil`.
* External libraries (`scipy.signal.find_peaks`, the `re` regex engine)
  are passed in as explicit function parameters: the repository treats
  them as black boxes and every claim proved here holds for an arbitrary
  implementation of the parameter (hypotheses state only the documented
  contracts, e.g. the `distance=2` peak-separation constraint).
* `pd.to_datetime` with an explicit format is modelled by the format
  chain below; the final fully permissive `dateutil` inference fallback
  is modelled as failure (`none`).  No claim depends on a string that
  only the permissive parser would accept.
-/

set_option autoImplicit false

namespace ViralFilter

/-! ### Character/string primitives (Python `str` operations) -/

/-- Python `str.strip()` on the left: drop leading whitespace. -/
def strip_chars (cs : List Char) : List Char :=
  ((cs.dropWhile Char.isWhitespace).reverse.dropWhile Char.isWhitespace).reverse

/-- Python `str.strip()` as a `String` operation. -/
def py_strip (s : String) : String :=
  String.mk (strip_chars s.data)

/-- Python `str.lower()` (ASCII case folding; all keywords involved are ASCII). -/
def lower_chars (cs : List Char) : List Char :=
  cs.map Char.toLower

/-- Python `str.split(sep)` for a one-character separator:
`"".split("|") = [""]`, separators at the ends produce empty segments. -/
def split_on_char (c : Char) : List Char → List (List Char)
  | [] => [[]]
  | x :: xs =>
    let r := split_on_char c xs
    if x = c then [] :: r
    else
      match r with
      | h :: t => (x :: h) :: t
      | [] => [[x]]

/-- Python `str.startswith(needle)` (first argument is the needle). -/
def starts_with_chars : List Char → List Char → Bool
  | [], _ => true
  | _ :: _, [] => false
  | p :: ps, x :: xs => p = x && starts_with_chars ps xs

/-- Python `needle in hay` substring test. -/
def contains_sub (needle : List Char) : List Char → Bool
  | [] => starts_with_chars needle []
  | x :: xs => starts_with_chars needle (x :: xs) || contains_sub needle xs

/-- Fold a list of decimal digit characters into a number (most significant first). -/
def digits_to_nat (cs : List Char) : Nat :=
  cs.foldl (fun a c => 10 * a + (c.toNat - 48)) 0

/-- Check that a token is one or more decimal digits. -/
def all_digits (cs : List Char) : Bool :=
  !cs.isEmpty && cs.all Char.isDigit

/-- Decimal digit character for a value below ten. -/
def digit_char (k : Nat) : Char :=
  if k = 0 then '0' else if k = 1 then '1' else if k = 2 then '2'
  else if k = 3 then '3' else if k = 4 then '4' else if k = 5 then '5'
  else if k = 6 then '6' else if k = 7 then '7' else if k = 8 then '8' else '9'

/-- Decimal digits of a number, least significant first, by structural
recursion on a fuel bound (so the kernel can evaluate it). -/
def digits_rev_aux : Nat → Nat → List Char
  | _, 0 => []
  | 0, _ + 1 => []
  | fuel + 1, n + 1 => digit_char ((n + 1) % 10) :: digits_rev_aux fuel ((n + 1) / 10)

/-- Decimal digits of a positive number, least significant first. -/
def digits_rev (n : Nat) : List Char :=
  digits_rev_aux n n

/-- Decimal digits of a number, most significant first (`0` renders as `"0"`). -/
def nat_digits (n : Nat) : List Char :=
  if n = 0 then ['0'] else (digits_rev n).reverse

/-- Zero-pad a number to a given width, as `strftime` does for `%Y`/`%m`/`%d`. -/
def pad_num (w n : Nat) : List Char :=
  List.replicate (w - (nat_digits n).length) '0' ++ nat_digits n

/-! ### Calendar dates (`pandas` Timestamps at date resolution) -/

/-- A calendar date, the shallow model of a midnight `pd.Timestamp`. -/
structure PDate where
  y : Nat
  m : Nat
  d : Nat
deriving DecidableEq

/-- Gregorian leap-year rule. -/
def is_leap (y : Nat) : Bool :=
  (y % 4 = 0 && y % 100 ≠ 0) || y % 400 = 0

/-- Number of days in a month. -/
def days_in_month (y m : Nat) : Nat :=
  if m = 2 then (if is_leap y then 29 else 28)
  else if m = 4 ∨ m = 6 ∨ m = 9 ∨ m = 11 then 30 else 31

/-- Month and day are in range for the given year. -/
def valid_md (y m d : Nat) : Bool :=
  1 ≤ m && m ≤ 12 && 1 ≤ d && d ≤ days_in_month y m

/-- Day count of a civil date (days since 1970-01-01, standard
`civil_from_days` inverse); the model of `Timestamp` subtraction `.days`. -/
def days_from_civil (dt : PDate) : Int :=
  let y : Int := if dt.m ≤ 2 then (dt.y : Int) - 1 else (dt.y : Int)
  let era : Int := Int.fdiv y 400
  let yoe : Int := y - era * 400
  let mp : Int := if 2 < dt.m then (dt.m : Int) - 3 else (dt.m : Int) + 9
  let doy : Int := Int.fdiv (153 * mp + 2) 5 + (dt.d : Int) - 1
  let doe : Int := yoe * 365 + Int.fdiv yoe 4 - Int.fdiv yoe 100 + doy
  era * 146097 + doe - 719468

/-! ### Date parsing (`parse_flexible_date` / `_batch_parse_dates`) -/

/-- Month number of an English three-letter abbreviation, case-insensitively
(`strptime` `%b`). -/
def month_from_abbrev (cs : List Char) : Option Nat :=
  let l := lower_chars cs
  if l = ('j' :: 'a' :: 'n' :: []) then some 1
  else if l = ('f' :: 'e' :: 'b' :: []) then some 2
  else if l = ('m' :: 'a' :: 'r' :: []) then some 3
  else if l = ('a' :: 'p' :: 'r' :: []) then some 4
  else if l = ('m' :: 'a' :: 'y' :: []) then some 5
  else if l = ('j' :: 'u' :: 'n' :: []) then some 6
  else if l = ('j' :: 'u' :: 'l' :: []) then some 7
  else if l = ('a' :: 'u' :: 'g' :: []) then some 8
  else if l = ('s' :: 'e' :: 'p' :: []) then some 9
  else if l = ('o' :: 'c' :: 't' :: []) then some 10
  else if l = ('n' :: 'o' :: 'v' :: []) then some 11
  else if l = ('d' :: 'e' :: 'c' :: []) then some 12
  else none

/-- Format `%Y-%m-%d` (4-digit year, 1-2 digit month/day, calendar-valid). -/
def parse_ymd (s : String) : Option PDate :=
  match split_on_char '-' s.data with
  | ys :: ms :: ds :: [] =>
    if all_digits ys && ys.length = 4 && all_digits ms && ms.length ≤ 2
        && all_digits ds && ds.length ≤ 2 then
      let y := digits_to_nat ys
      let m := digits_to_nat ms
      let d := digits_to_nat ds
      if valid_md y m d then some ⟨y, m, d⟩ else none
    else none
  | _ => none

/-- Format `%Y-%m` (first day of the month). -/
def parse_ym (s : String) : Option PDate :=
  match split_on_char '-' s.data with
  | ys :: ms :: [] =>
    if all_digits ys && ys.length = 4 && all_digits ms && ms.length ≤ 2 then
      let y := digits_to_nat ys
      let m := digits_to_nat ms
      if 1 ≤ m && m ≤ 12 then some ⟨y, m, 1⟩ else none
    else none
  | _ => none

/-- Format `%Y` (first day of the year). -/
def parse_y (s : String) : Option PDate :=
  if all_digits s.data && s.data.length = 4 then some ⟨digits_to_nat s.data, 1, 1⟩ else none

/-- Format `%d-%b-%Y`. -/
def parse_dby (s : String) : Option PDate :=
  match split_on_char '-' s.data with
  | ds :: bs :: ys :: [] =>
    match month_from_abbrev bs with
    | some m =>
      if all_digits ds && ds.length ≤ 2 && all_digits ys && ys.length = 4 then
        let y := digits_to_nat ys
        let d := digits_to_nat ds
        if valid_md y m d then some ⟨y, m, d⟩ else none
      else none
    | none => none
  | _ => none

/-- Format `%b-%Y` (first day of the month). -/
def parse_by (s : String) : Option PDate :=
  match split_on_char '-' s.data with
  | bs :: ys :: [] =>
    match month_from_abbrev bs with
    | some m =>
      if all_digits ys && ys.length = 4 then some ⟨digits_to_nat ys, m, 1⟩ else none
    | none => none
  | _ => none

/-- Format `%b-%d-%Y`. -/
def parse_bdy (s : String) : Option PDate :=
  match split_on_char '-' s.data with
  | bs :: ds :: ys :: [] =>
    match month_from_abbrev bs with
    | some m =>
      if all_digits ds && ds.length ≤ 2 && all_digits ys && ys.length = 4 then
        let y := digits_to_nat ys
        let d := digits_to_nat ds
        if valid_md y m d then some ⟨y, m, d⟩ else none
      else none
    | none => none
  | _ => none

/-- Format `%Y%m%d` (eight digits). -/
def parse_ymd8 (s : String) : Option PDate :=
  if all_digits s.data && s.data.length = 8 then
    let y := digits_to_nat (s.data.take 4)
    let m := digits_to_nat ((s.data.drop 4).take 2)
    let d := digits_to_nat (s.data.drop 6)
    if valid_md y m d then some ⟨y, m, d⟩ else none
  else none

/-- The `_SLOW_DATE_FMTS` fallback chain, in source order
(`%Y-%m`, `%Y`, `%d-%b-%Y`, `%b-%Y`, `%b-%d-%Y`, `%Y%m%d`); the final
permissive `pd.to_datetime` inference is modelled as failure. -/
def parse_slow_formats (s : String) : Option PDate :=
  match parse_ym s with
  | some d => some d
  | none =>
    match parse_y s with
    | some d => some d
    | none =>
      match parse_dby s with
      | some d => some d
      | none =>
        match parse_by s with
        | some d => some d
        | none =>
          match parse_bdy s with
          | some d => some d
          | none => parse_ymd8 s

/-- The `_DATE_NULL_SET` sentinels that parse to `None` without trying formats. -/
def date_null_set : List String :=
  ["", "Unknown", "unknown", "N/A", "NA", "None", "none"]

/-- Per-element semantics of `_batch_parse_dates`: the vectorized fast
path (`%Y-%m-%d`), then the null-sentinel check, then the slow format chain. -/
def batch_parse_date (s : String) : Option PDate :=
  match parse_ymd s with
  | some d => some d
  | none =>
    let t := py_strip s
    if date_null_set.contains t then none
    else parse_slow_formats t

/-- Timestamp rendering `strftime` `%Y-%m-%d` used by `convert_df_to_fasta`. -/
def format_date (dt : PDate) : String :=
  String.mk (pad_num 4 dt.y ++ '-' :: pad_num 2 dt.m ++ '-' :: pad_num 2 dt.d)

/-! ### Header parsing (`gisaid_parser._parse_header` and helpers) -/

/-- The avian host keyword list from `infer_host_from_isolate`. -/
def avian_keywords : List String :=
  ["duck", "goose", "chicken", "swan", "gull", "teal",
   "quail", "pheasant", "pigeon", "turkey", "ostrich", "wild bird"]

/-- The mammalian host keyword list from `infer_host_from_isolate`. -/
def mammal_keywords : List String :=
  ["swine", "pig", "ferret", "mink", "seal",
   "cat", "dog", "horse", "tiger", "leopard"]

/-- Host inference from the GISAID isolate naming convention
(`infer_host_from_isolate`). -/
def infer_host_from_isolate (isolate : String) : String :=
  if isolate = ("") then ("Unknown")
  else
    let nl := lower_chars isolate.data
    if contains_sub (String.data ("/environment/")) nl then ("Environment")
    else if avian_keywords.any (fun k => contains_sub k.data nl) then ("Avian")
    else if mammal_keywords.any (fun k => contains_sub k.data nl) then ("Mammalian")
    else if (starts_with_chars (String.data ("A/")) isolate.data
              || starts_with_chars (String.data ("B/")) isolate.data)
            && 2 ≤ isolate.data.count '/' then ("Human")
    else ("Unknown")

/-- The host/type keywords skipped by `extract_location_from_isolate`. -/
def location_skip_set : List String :=
  ["a", "b", "duck", "goose", "chicken", "swan", "gull", "swine",
   "pig", "ferret", "mink", "seal", "environment", "wild bird", "avian"]

/-- The isolate-name segments considered by `extract_location_from_isolate`:
split on `/`, strip each segment, drop the empty ones. -/
def location_parts (isolate : String) : List (List Char) :=
  ((split_on_char '/' isolate.data).map strip_chars).filter (fun p => !p.isEmpty)

/-- A segment that is not a host/type skip keyword. -/
def location_nonskip (p : List Char) : Bool :=
  !location_skip_set.contains (String.mk (lower_chars p))

/-- Geographic location extraction from an isolate name
(`extract_location_from_isolate`): split on `/`, drop empty segments, return
the first segment that is not a skip keyword; if every segment is skipped,
fall back to the second segment when one exists, else `Unknown`. -/
def extract_location_from_isolate (isolate : String) : String :=
  if isolate = ("") then ("Unknown")
  else
    let parts := location_parts isolate
    match parts.find? location_nonskip with
    | some p => String.mk p
    | none => if 1 < parts.length then String.mk (parts.getD 1 []) else ("Unknown")

/-- Match of the regex `H\d+N\d+` anchored at the head of the character
list (greedy digit runs need no backtracking here because the digit class
and `N` are disjoint).  The continuation after the leading digit run is a
separate function so that its equations rewrite cleanly. -/
def hxnx_after_digits (ds1 : List Char) : List Char → Option (List Char)
  | [] => none
  | c2 :: rest2 =>
    if c2 = 'N' then
      let ds2 := rest2.takeWhile Char.isDigit
      if ds2.isEmpty then none
      else some ('H' :: ds1 ++ 'N' :: ds2)
    else none

/-- Anchored match of `H\d+N\d+` at the head of the character list. -/
def hxnx_match_at : List Char → Option (List Char)
  | [] => none
  | c :: rest =>
    if c = 'H' then
      let ds1 := rest.takeWhile Char.isDigit
      if ds1.isEmpty then none
      else hxnx_after_digits ds1 (rest.dropWhile Char.isDigit)
    else none

/-- Leftmost match of `_HXNX_RE.search`: scan positions left to right. -/
def hxnx_search_chars : List Char → Option (List Char)
  | [] => none
  | c :: cs =>
    match hxnx_match_at (c :: cs) with
    | some m => some m
    | none => hxnx_search_chars cs

/-- Whether a character list has the exact shape `H` digits `N` digits. -/
def is_hxnx_shape (cs : List Char) : Bool :=
  match cs with
  | [] => false
  | c :: rest =>
    c = 'H' && !(rest.takeWhile Char.isDigit).isEmpty &&
      (match rest.dropWhile Char.isDigit with
       | [] => false
       | c2 :: ds2 => c2 = 'N' && !ds2.isEmpty && ds2.all Char.isDigit)

/-- Clade hierarchy levels (`clade_l1..clade_l6` computed in `_parse_header`). -/
def clade_levels (clade : String) : List (Option String) :=
  let cv := if clade = ("") then ("Unknown") else clade
  if cv = ("Unknown") ∨ cv = ("") ∨ cv = ("None") ∨ cv = ("none") then
    List.replicate 6 none
  else
    let levels := split_on_char '.' cv.data
    (List.range 6).map (fun i =>
      if i < levels.length then
        some (String.mk (join_dotted (levels.take (i + 1))))
      else none)
where
  /-- Re-join dot-separated clade segments (`".".join`). -/
  join_dotted : List (List Char) → List Char
    | [] => []
    | x :: [] => x
    | x :: y :: t => x ++ '.' :: join_dotted (y :: t)

/-- The stripped pipe-delimited parts of one header line
(`[p.strip() for p in header.split("|")]`). -/
def split_header (header : String) : List String :=
  (split_on_char '|' header.data).map (fun p => String.mk (strip_chars p))

/-- One parsed header: the metadata dict built by `_parse_header` (with
`_raw_date` still a raw string, exactly as in the source before the batch
date pass). -/
structure ParsedMeta where
  isolate : String
  subtype : String
  segment : String
  location : String
  host : String
  raw_date : String
  clade : String
  accession : String
  subtype_clean : String
  clade_l : List (Option String)
deriving DecidableEq

/-- The header parser `_parse_header`: dispatch on pipe count (`>= 9` parts
selects the extended v1.0 layout, otherwise the standard 6-field layout with
`Unknown` padding for missing string fields and `""` for a missing date). -/
def parse_header (header : String) : ParsedMeta :=
  let parts := split_header header
  let n := parts.length
  let ext := 9 ≤ n
  let isolate := parts.getD 0 ("Unknown")
  let subtype := if ext then parts.getD 2 ("Unknown") else parts.getD 1 ("Unknown")
  let segment := if ext then parts.getD 3 ("Unknown") else parts.getD 2 ("Unknown")
  let location := if ext then parts.getD 4 ("Unknown") else extract_location_from_isolate isolate
  let host := if ext then parts.getD 5 ("Unknown") else infer_host_from_isolate isolate
  let raw_date := if ext then parts.getD 6 ("") else parts.getD 3 ("")
  let clade := if ext then parts.getD 7 ("Unknown") else parts.getD 5 ("Unknown")
  let accession := if ext then parts.getD 8 ("Unknown") else parts.getD 4 ("Unknown")
  let subtype_clean :=
    match hxnx_search_chars subtype.data with
    | some m => String.mk m
    | none => subtype
  { isolate := isolate, subtype := subtype, segment := segment,
    location := location, host := host, raw_date := raw_date,
    clade := clade, accession := accession, subtype_clean := subtype_clean,
    clade_l := clade_levels clade }

/-- The six header fields rebuilt by the export layer (`convert_df_to_fasta`):
standard order `isolate|subtype|segment|date|accession|clade` with the date
rendered `%Y-%m-%d` or `Unknown` when absent. -/
def reconstruct_header_fields (meta : ParsedMeta) (cd : Option PDate) : List String :=
  [meta.isolate, meta.subtype, meta.segment,
   (match cd with | some dt => format_date dt | none => ("Unknown")),
   meta.accession, meta.clade]

/-! ### Filter engine (`vectorized_filters.VectorizedFilterEngine`) -/

/-- A rule value: scalar string, list of strings, or Python `None`
(a rule dict missing its `value` key). -/
inductive FValue
  | scalar (s : String)
  | vlist (l : List String)
  | null
deriving DecidableEq

/-- One declarative filter rule (`{field, operator, value}` dict;
`rule.get` defaults `field=""`, `operator="equals"` are assumed already
applied). -/
structure FilterRule where
  field : String
  operator : String
  value : FValue
deriving DecidableEq

/-- Python `str(value)` for a rule value.  For a list `str` would render
Python repr syntax; no claim exercises a list value under a scalar
operator, so a plain comma join stands in for the repr. -/
def fvalue_str : FValue → String
  | .scalar s => s
  | .vlist l => String.intercalate (", ") l
  | .null => ("None")

/-- Python iteration over `(value or [])` in the `in_list` branch:
a string value iterates its characters, `None` gives the empty list. -/
def fvalue_items : FValue → List String
  | .scalar s => s.data.map (fun c => String.mk [c])
  | .vlist l => l
  | .null => []

/-- One DataFrame cell.  `none` models a missing value (Python `None`);
`cell_str` is `astype(str)` (pandas `NaN` would render `"nan"` rather than
`"None"`; no claim distinguishes the two spellings). -/
def cell_str : Option String → String
  | some s => s
  | none => ("None")

/-- A DataFrame row: an association of column name to cell. -/
def Row : Type := List (String × Option String)

instance : DecidableEq Row := by
  unfold Row
  infer_instance

/-- Cell lookup in a row (missing column behaves as a null cell). -/
def get_cell (row : Row) (f : String) : Option String :=
  (row.lookup f).getD none

/-- The permissive per-cell `pd.to_datetime` / `pd.Timestamp` parse used by
the `date_range` operator, modelled by the explicit format chain. -/
def pd_parse_permissive (s : String) : Option PDate :=
  batch_parse_date s

/-- `VectorizedFilterEngine._build_mask`: one boolean mask per rule, or
`none` when the rule must be skipped (invalid regex, malformed date pair,
unknown operator).  The regex library is the parameter `reE`: compiling a
pattern yields a case-insensitive search function, or `none` for an invalid
pattern. -/
def build_mask (reE : String → Option (String → Bool)) (operator : String)
    (value : FValue) : Option (Option String → Bool) :=
  if operator = ("equals") then
    some (fun cell => py_strip (cell_str cell) = py_strip (fvalue_str value))
  else if operator = ("not_equals") then
    some (fun cell => py_strip (cell_str cell) ≠ py_strip (fvalue_str value))
  else if operator = ("contains") then
    some (fun cell =>
      contains_sub (lower_chars (fvalue_str value).data) (lower_chars (cell_str cell).data))
  else if operator = ("not_contains") then
    some (fun cell =>
      !contains_sub (lower_chars (fvalue_str value).data) (lower_chars (cell_str cell).data))
  else if operator = ("starts_with") then
    some (fun cell => starts_with_chars (fvalue_str value).data (cell_str cell).data)
  else if operator = ("regex") then
    match reE (fvalue_str value) with
    | some matcher => some (fun cell => matcher (cell_str cell))
    | none => none
  else if operator = ("in_list") then
    some (fun cell => ((fvalue_items value).map py_strip).contains (py_strip (cell_str cell)))
  else if operator = ("date_range") then
    match value with
    | .vlist (a :: b :: _) =>
      match pd_parse_permissive a, pd_parse_permissive b with
      | some s, some e =>
        some (fun cell =>
          match pd_parse_permissive (cell_str cell) with
          | some dd =>
            days_from_civil s ≤ days_from_civil dd && days_from_civil dd ≤ days_from_civil e
          | none => false)
      | _, _ => none
    | _ => none
  else none

/-- A DataFrame: column names plus rows. -/
structure DataFrame where
  cols : List String
  rows : List Row
deriving DecidableEq

/-- Row-level effect of one rule inside `apply_header_component_filters`:
unknown fields and skipped masks contribute `True` to the combined mask. -/
def rule_test (reE : String → Option (String → Bool)) (cols : List String)
    (rule : FilterRule) (row : Row) : Bool :=
  if cols.contains rule.field then
    match build_mask reE rule.operator rule.value with
    | some mask => mask (get_cell row rule.field)
    | none => true
  else true

/-- `VectorizedFilterEngine.apply_header_component_filters`: one combined
boolean mask (the conjunction of the per-rule masks) applied in a single
pass; empty input or an empty rule list returns the input unchanged. -/
def apply_header_component_filters (reE : String → Option (String → Bool))
    (df : DataFrame) (rules : List FilterRule) : DataFrame :=
  if df.rows.isEmpty || rules.isEmpty then df
  else
    { cols := df.cols,
      rows := df.rows.filter (fun row => rules.all (fun rule => rule_test reE df.cols rule row)) }

/-- A cell that survives `replace({"Unknown": None, "": None}).dropna()`. -/
def populated_cell (cell : Option String) : Bool :=
  match cell with
  | some s => !(s = ("Unknown") || s = (""))
  | none => false

/-- `VectorizedFilterEngine.auto_detect_available_fields`, reduced to its
availability decision: the columns kept by the `populated_pct < 10 →
continue` loop (the per-field stats dict is presentation metadata).  The
float `100 * n / N < 10` comparison is exact for these magnitudes and
equals `10 * n < N`. -/
def auto_detect_available_fields (df : DataFrame) : List String :=
  if df.rows.isEmpty then []
  else
    df.cols.filter (fun c =>
      !(c = ("sequence") || c = ("sequence_hash")) &&
        df.rows.length ≤ 10 * df.rows.countP (fun row => populated_cell (get_cell row c)))

/-! ### Wave detection (`peak_detector.EpiWaveDetector`) -/

/-- First index of the minimum of a list (`np.argmin`; ties resolve to the
earliest index). -/
def np_argmin : List Nat → Nat
  | [] => 0
  | _ :: [] => 0
  | x :: y :: t =>
    let j := np_argmin (y :: t)
    if (y :: t).getD j 0 < x then j + 1 else 0

/-- The trough recorded for one pair of consecutive peaks: the position of
the minimum of the slice interior `segment.iloc[1:-1]`, shifted back to
series coordinates. -/
def pair_trough (counts : List Nat) (s e : Nat) : Nat :=
  let segment := (counts.drop s).take (e + 1 - s)
  s + 1 + np_argmin ((segment.drop 1).take (segment.length - 2))

/-- The per-pair loop body of `_find_troughs_between_peaks`: for each pair
of consecutive peaks, slice `counts[start:end+1]` and, when the slice has an
interior, record the position of the interior minimum. -/
def troughs_go (counts : List Nat) : List Nat → List Nat
  | s :: e :: rest =>
    (if 2 < ((counts.drop s).take (e + 1 - s)).length then [pair_trough counts s e]
     else []) ++ troughs_go counts (e :: rest)
  | _ => []

/-- `EpiWaveDetector._find_troughs_between_peaks`. -/
def find_troughs_between_peaks (counts : List Nat) (peaks : List Nat) : List Nat :=
  if peaks.length < 2 then [] else troughs_go counts peaks

/-- A sampler-facing record: identity hash plus optional parsed collection
date (`rid` distinguishes otherwise identical rows). -/
structure SRecord where
  rid : Nat
  sequence_hash : String
  collection_date : Option PDate
deriving DecidableEq

/-- ISO-week bucket of a date (`dt.to_period("W")`, weeks ending Sunday;
the exact phase of the week grid is irrelevant to every claim). -/
def week_of (dt : PDate) : Int :=
  Int.fdiv (days_from_civil dt + 3) 7

/-- Calendar-month bucket of a date (`dt.to_period("M")`). -/
def month_of (dt : PDate) : Int :=
  12 * (dt.y : Int) + ((dt.m : Int) - 1)

/-- Calendar-quarter bucket of a date (`dt.to_period("Q")`). -/
def quarter_of (dt : PDate) : Int :=
  4 * (dt.y : Int) + Int.fdiv ((dt.m : Int) - 1) 3

/-- Sort key used by `sort_values("collection_date")` (rows reaching the
sort already have a parsed date, so the `none` default is never compared). -/
def date_key (r : SRecord) : Int :=
  match r.collection_date with
  | some dt => days_from_civil dt
  | none => 0

/-- Ordered insertion for the date sort. -/
def insert_by_date (r : SRecord) : List SRecord → List SRecord
  | [] => [r]
  | x :: xs => if date_key r ≤ date_key x then r :: x :: xs else x :: insert_by_date r xs

/-- Sort rows by collection date (`sort_values`; pandas' default quicksort
is unstable, so any reordering of date ties is a faithful model). -/
def sort_by_date : List SRecord → List SRecord
  | [] => []
  | r :: rs => insert_by_date r (sort_by_date rs)

/-- Keep the first row per key (`groupby(keys, sort=False).first()` after
the date sort; every surviving row has a parsed date, so per-column
first-non-null aggregation coincides with taking the group's first row). -/
def dedup_by_key {κ : Type} [DecidableEq κ] (key : SRecord → κ) :
    List κ → List SRecord → List SRecord
  | _, [] => []
  | seen, r :: rs =>
    if key r ∈ seen then dedup_by_key key seen rs
    else r :: dedup_by_key key (key r :: seen) rs

/-- Common body of the weekly / monthly / quarterly sentinel samplers:
drop rows whose period is `NaT`, sort by date, and keep the first row per
`(sequence_hash, period)` pair. -/
def sentinel_sampling (period_of : PDate → Int) (df : List SRecord) : List SRecord :=
  if df.isEmpty then df
  else
    let kept := df.filter (fun r => r.collection_date.isSome)
    dedup_by_key (fun r => (r.sequence_hash, r.collection_date.map period_of)) []
      (sort_by_date kept)

/-- `AdaptiveBiologicalSampler._weekly_sentinel_sampling`. -/
def weekly_sentinel_sampling (df : List SRecord) : List SRecord :=
  sentinel_sampling week_of df

/-- `AdaptiveBiologicalSampler._monthly_sentinel_sampling`. -/
def monthly_sentinel_sampling (df : List SRecord) : List SRecord :=
  sentinel_sampling month_of df

/-- Ordered insertion for integer sorting. -/
def insert_int (x : Int) : List Int → List Int
  | [] => [x]
  | y :: ys => if x ≤ y then x :: y :: ys else y :: insert_int x ys

/-- Sort a list of integers ascending (`sort_index`). -/
def sort_ints : List Int → List Int
  | [] => []
  | x :: xs => insert_int x (sort_ints xs)

/-- Remove adjacent duplicates of a sorted list (the distinct index of
`value_counts().sort_index()`). -/
def dedup_adjacent : List Int → List Int
  | [] => []
  | x :: [] => [x]
  | x :: y :: t => if x = y then dedup_adjacent (y :: t) else x :: dedup_adjacent (y :: t)

/-- `EpiWaveDetector._build_weekly_counts`: weekly buckets of the parseable
dates with their multiplicities, ordered by week. -/
def build_weekly_counts (df : List SRecord) : List (Int × Nat) :=
  let ws := (df.filterMap (fun r => r.collection_date)).map week_of
  (dedup_adjacent (sort_ints ws)).map (fun w => (w, ws.count w))

/-- The Wave Detector output (`detect_epi_waves` result dict). -/
structure WaveAnalysis where
  peaks : List (Int × Nat)
  troughs : List (Int × Nat)
  wave_count : Nat
  ts : List (Int × Nat)
deriving DecidableEq

/-- `EpiWaveDetector.detect_epi_waves`.  The `scipy.signal.find_peaks`
call is the parameter `fp` (its `height`/`prominence`/`distance` arguments
are internal to the library model); a series with fewer than 3 periods
short-circuits to an empty analysis before the library is consulted. -/
def detect_epi_waves (fp : List Nat → List Nat) (df : List SRecord) : WaveAnalysis :=
  let ts := build_weekly_counts df
  if ts.length < 3 then ⟨[], [], 0, ts⟩
  else
    let counts := ts.map Prod.snd
    let peak_idx := fp counts
    let trough_idx := find_troughs_between_peaks counts peak_idx
    ⟨peak_idx.map (fun i => ts.getD i (0, 0)),
     trough_idx.map (fun i => ts.getD i (0, 0)),
     peak_idx.length, ts⟩

/-- Keep the first element per integer key (Python `set` accumulation of
selected periods, iterated in first-appearance order). -/
def dedup_ints_seen : List Int → List Int → List Int
  | _, [] => []
  | seen, x :: xs =>
    if x ∈ seen then dedup_ints_seen seen xs
    else x :: dedup_ints_seen (x :: seen) xs

/-- The set of peak/trough week periods selected by
`extract_wave_representatives` (Python set accumulation, iterated in
first-appearance order). -/
def wave_selected_periods (wa : WaveAnalysis) : List Int :=
  dedup_ints_seen [] (wa.peaks.map Prod.fst ++ wa.troughs.map Prod.fst)

/-- The temporal bookends: the first and (when distinct) last row among the
rows with a parsed date, in input order. -/
def wave_bookends (valid : List SRecord) : List SRecord :=
  valid.take 1 ++ (if 1 < valid.length then valid.drop (valid.length - 1) else [])

/-- One first-occurring row per selected week period; a row without a
parsed date has period `NaT` and can never match a selected week. -/
def wave_per_period (df : List SRecord) (selected : List Int) : List SRecord :=
  selected.filterMap (fun p => df.find? (fun r => r.collection_date.map week_of = some p))

/-- `EpiWaveDetector.extract_wave_representatives`: global first and last
dated rows, plus the first row of each peak/trough week, deduplicated by
sequence hash. -/
def extract_wave_representatives (df : List SRecord) (wa : WaveAnalysis) : List SRecord :=
  if df.isEmpty then []
  else
    if (wave_bookends (df.filter (fun r => r.collection_date.isSome)) ++
        wave_per_period df (wave_selected_periods wa)).isEmpty then []
    else
      dedup_by_key (fun r => r.sequence_hash) []
        (wave_bookends (df.filter (fun r => r.collection_date.isSome)) ++
          wave_per_period df (wave_selected_periods wa))

/-! ### Adaptive sampler (`adaptive_sampler.AdaptiveBiologicalSampler`) -/

/-- Lifespan threshold `MICRO_MAX` (days). -/
def MICRO_MAX : Int := 90

/-- Lifespan threshold `SEASONAL_MAX` (days). -/
def SEASONAL_MAX : Int := 270

/-- `AdaptiveBiologicalSampler.calculate_lifespan_category`: the span in
days between the earliest and latest parseable collection date decides
Micro / Seasonal / Endemic; empty data or no parseable dates default to
Seasonal. -/
def calculate_lifespan_category (df : List SRecord) : String :=
  if df.isEmpty then ("Seasonal")
  else
    match df.filterMap (fun r => r.collection_date.map days_from_civil) with
    | [] => ("Seasonal")
    | d :: rest =>
      let span := rest.foldl max d - rest.foldl min d
      if span < MICRO_MAX then ("Micro")
      else if span ≤ SEASONAL_MAX then ("Seasonal")
      else ("Endemic")

/-- `AdaptiveBiologicalSampler._quarterly_or_wave_sampling`: wave-based
representatives when the detector reports at least two peaks, otherwise the
quarterly sentinel fallback. -/
def quarterly_or_wave_sampling (fp : List Nat → List Nat) (df : List SRecord) :
    List SRecord :=
  if df.isEmpty then df
  else
    let wa := detect_epi_waves fp df
    if 2 ≤ wa.wave_count then extract_wave_representatives df wa
    else sentinel_sampling quarter_of df

/-- `AdaptiveBiologicalSampler.apply_proportionality_rule`: dispatch on the
(possibly auto-detected) lifespan category. -/
def apply_proportionality_rule (fp : List Nat → List Nat) (df : List SRecord)
    (category : Option String) : List SRecord :=
  if df.isEmpty then df
  else
    let cat := category.getD (calculate_lifespan_category df)
    if cat = ("Micro") then weekly_sentinel_sampling df
    else if cat = ("Seasonal") then monthly_sentinel_sampling df
    else quarterly_or_wave_sampling fp df

/-! ### Helper lemmas -/

theorem foldl_max_mem (d : Int) (l : List Int) : l.foldl max d ∈ d :: l := by
  induction l generalizing d with
  | nil => simp
  | cons x xs ih =>
    have h := ih (max d x)
    rw [List.foldl_cons]
    rcases List.mem_cons.mp h with h1 | h2
    · rcases max_choice d x with hd | hx
      · rw [h1, hd]; exact List.mem_cons_self _ _
      · rw [h1, hx]; exact List.mem_cons_of_mem _ (List.mem_cons_self _ _)
    · exact List.mem_cons_of_mem _ (List.mem_cons_of_mem _ h2)

theorem le_foldl_max (d : Int) (l : List Int) : ∀ x ∈ d :: l, x ≤ l.foldl max d := by
  induction l generalizing d with
  | nil => intro x hx; simp at hx; simp [hx]
  | cons y ys ih =>
    intro x hx
    rcases List.mem_cons.mp hx with h1 | h2
    · calc x = d := h1
        _ ≤ max d y := le_max_left d y
        _ ≤ (y :: ys).foldl max d := by
            simpa using ih (max d y) (max d y) (List.mem_cons_self _ _)
    · rcases List.mem_cons.mp h2 with h3 | h4
      · calc x = y := h3
          _ ≤ max d y := le_max_right d y
          _ ≤ (y :: ys).foldl max d := by
              simpa using ih (max d y) (max d y) (List.mem_cons_self _ _)
      · simpa using ih (max d y) x (List.mem_cons_of_mem _ h4)

theorem foldl_min_mem (d : Int) (l : List Int) : l.foldl min d ∈ d :: l := by
  induction l generalizing d with
  | nil => simp
  | cons x xs ih =>
    have h := ih (min d x)
    rw [List.foldl_cons]
    rcases List.mem_cons.mp h with h1 | h2
    · rcases min_choice d x with hd | hx
      · rw [h1, hd]; exact List.mem_cons_self _ _
      · rw [h1, hx]; exact List.mem_cons_of_mem _ (List.mem_cons_self _ _)
    · exact List.mem_cons_of_mem _ (List.mem_cons_of_mem _ h2)

theorem foldl_min_le (d : Int) (l : List Int) : ∀ x ∈ d :: l, l.foldl min d ≤ x := by
  induction l generalizing d with
  | nil => intro x hx; simp at hx; simp [hx]
  | cons y ys ih =>
    intro x hx
    have hbase : (y :: ys).foldl min d ≤ min d y := by
      simpa using ih (min d y) (min d y) (List.mem_cons_self _ _)
    rcases List.mem_cons.mp hx with h1 | h2
    · exact le_trans hbase (le_trans (min_le_left d y) (le_of_eq h1.symm))
    · rcases List.mem_cons.mp h2 with h3 | h4
      · exact le_trans hbase (le_trans (min_le_right d y) (le_of_eq h3.symm))
      · simpa using ih (min d y) x (List.mem_cons_of_mem _ h4)

theorem takeWhile_append_of_all {p : Char → Bool} (l₁ l₂ : List Char)
    (h : ∀ a ∈ l₁, p a = true) (x : Char) (hx : p x = false) :
    (l₁ ++ x :: l₂).takeWhile p = l₁ ∧ (l₁ ++ x :: l₂).dropWhile p = x :: l₂ := by
  induction l₁ with
  | nil => simp [List.takeWhile_cons, List.dropWhile_cons, hx]
  | cons a l ih =>
    have ha : p a = true := h a (List.mem_cons_self _ _)
    have ih' := ih (fun b hb => h b (List.mem_cons_of_mem _ hb))
    simp [List.takeWhile_cons, List.dropWhile_cons, ha, ih'.1, ih'.2]

theorem all_takeWhile {p : Char → Bool} (l : List Char) :
    ∀ a ∈ l.takeWhile p, p a = true := by
  induction l with
  | nil => simp
  | cons x xs ih =>
    intro a ha
    by_cases hx : p x = true
    · rw [List.takeWhile_cons, if_pos hx] at ha
      rcases List.mem_cons.mp ha with h1 | h2
      · rw [h1]; exact hx
      · exact ih a h2
    · rw [List.takeWhile_cons, if_neg hx] at ha
      exact absurd ha (List.not_mem_nil a)

/-- Assembling nonempty digit runs around `H` and `N` yields the shape. -/
theorem is_hxnx_shape_build (ds1 ds2 : List Char) (h1 : ds1 ≠ []) (h2 : ds2 ≠ [])
    (ha1 : ∀ a ∈ ds1, Char.isDigit a = true) (ha2 : ∀ a ∈ ds2, Char.isDigit a = true) :
    is_hxnx_shape ('H' :: ds1 ++ 'N' :: ds2) = true := by
  have hsplit := takeWhile_append_of_all ds1 ds2 ha1 'N' (by decide)
  have hdef : is_hxnx_shape ('H' :: (ds1 ++ 'N' :: ds2)) =
      (decide (('H' : Char) = 'H') &&
        !(List.takeWhile Char.isDigit (ds1 ++ 'N' :: ds2)).isEmpty &&
        (match List.dropWhile Char.isDigit (ds1 ++ 'N' :: ds2) with
         | [] => false
         | c2 :: ds2' => decide (c2 = 'N') && !ds2'.isEmpty && ds2'.all Char.isDigit)) := rfl
  rw [List.cons_append, hdef, hsplit.1, hsplit.2]
  simp [h1, h2, List.all_eq_true]
  exact ha2

/-- Structure of a successful anchored `H\d+N\d+` match: the match is a
prefix of the input and has the `H` digits `N` digits shape. -/
theorem hxnx_match_at_some {cs m : List Char} (h : hxnx_match_at cs = some m) :
    is_hxnx_shape m = true ∧ ∃ post, cs = m ++ post := by
  match cs with
  | [] => simp [hxnx_match_at] at h
  | c :: rest =>
    simp only [hxnx_match_at] at h
    by_cases hc : c = 'H'
    case neg => rw [if_neg hc] at h; exact absurd h (by simp)
    rw [if_pos hc] at h
    by_cases hds1 : (rest.takeWhile Char.isDigit).isEmpty
    case pos => rw [if_pos hds1] at h; exact absurd h (by simp)
    rw [if_neg hds1] at h
    match hdw : rest.dropWhile Char.isDigit with
    | [] =>
      rw [hdw] at h
      simp [hxnx_after_digits] at h
    | c2 :: rest2 =>
      rw [hdw] at h
      simp only [hxnx_after_digits] at h
      by_cases hc2 : c2 = 'N'
      case neg => rw [if_neg hc2] at h; exact absurd h (by simp)
      rw [if_pos hc2] at h
      by_cases hds2 : (rest2.takeWhile Char.isDigit).isEmpty
      case pos => rw [if_pos hds2] at h; exact absurd h (by simp)
      rw [if_neg hds2] at h
      have hm : m = 'H' :: rest.takeWhile Char.isDigit ++
          'N' :: rest2.takeWhile Char.isDigit := (Option.some.inj h).symm
      have hne1 : rest.takeWhile Char.isDigit ≠ [] := by
        intro hh; rw [hh] at hds1; exact hds1 rfl
      have hne2 : rest2.takeWhile Char.isDigit ≠ [] := by
        intro hh; rw [hh] at hds2; exact hds2 rfl
      constructor
      · rw [hm]
        exact is_hxnx_shape_build _ _ hne1 hne2 (all_takeWhile rest) (all_takeWhile rest2)
      · refine ⟨rest2.dropWhile Char.isDigit, ?_⟩
        rw [hm, hc]
        have h1 : rest.takeWhile Char.isDigit ++ rest.dropWhile Char.isDigit = rest :=
          List.takeWhile_append_dropWhile Char.isDigit rest
        have h2 : rest2.takeWhile Char.isDigit ++ rest2.dropWhile Char.isDigit = rest2 :=
          List.takeWhile_append_dropWhile Char.isDigit rest2
        calc 'H' :: rest
            = 'H' :: (rest.takeWhile Char.isDigit ++ rest.dropWhile Char.isDigit) := by
              rw [h1]
          _ = 'H' :: (rest.takeWhile Char.isDigit ++ ('N' :: rest2)) := by
              rw [hdw, hc2]
          _ = 'H' :: (rest.takeWhile Char.isDigit ++
                ('N' :: (rest2.takeWhile Char.isDigit ++ rest2.dropWhile Char.isDigit))) := by
              rw [h2]
          _ = ('H' :: rest.takeWhile Char.isDigit ++ 'N' :: rest2.takeWhile Char.isDigit)
                ++ rest2.dropWhile Char.isDigit := by
              simp

/-- Structure of a successful `_HXNX_RE.search`: the result is an infix of
the input with the `H` digits `N` digits shape. -/
theorem hxnx_search_some {cs m : List Char} (h : hxnx_search_chars cs = some m) :
    is_hxnx_shape m = true ∧ ∃ pre post, cs = pre ++ m ++ post := by
  induction cs with
  | nil => simp [hxnx_search_chars] at h
  | cons c rest ih =>
    rw [hxnx_search_chars] at h
    match hma : hxnx_match_at (c :: rest) with
    | some m' =>
      rw [hma] at h
      have hm : m' = m := Option.some.inj h
      rcases hxnx_match_at_some hma with ⟨hshape, post, hpost⟩
      exact ⟨hm ▸ hshape, [], post, by rw [← hm]; simpa using hpost⟩
    | none =>
      rw [hma] at h
      rcases ih h with ⟨hshape, pre, post, heq⟩
      exact ⟨hshape, c :: pre, post, by rw [List.cons_append, List.cons_append, ← heq]⟩

/-- A shaped match is never the empty character list. -/
theorem is_hxnx_shape_ne_nil {m : List Char} (h : is_hxnx_shape m = true) : m ≠ [] := by
  intro hm
  rw [hm] at h
  simp [is_hxnx_shape] at h

/-- The `subtype_clean` assignment inside `_parse_header`, isolated. -/
theorem parse_header_subtype_clean (h : String) :
    (parse_header h).subtype_clean =
      (match hxnx_search_chars (parse_header h).subtype.data with
       | some m => String.mk m
       | none => (parse_header h).subtype) := rfl

/-! ### Claim theorems -/

/-- Claim C1: the header parser dispatches purely on pipe count — with at
least 9 stripped parts it reads the extended layout
`name|type|subtype|segment|location|host|date|clade|accession`, otherwise
the standard layout `isolate|subtype|segment|date|accession|clade`, padding
missing trailing string fields with the `Unknown` sentinel (a missing date
pads to the empty raw string, which parses to no date, exactly as the
`Unknown` sentinel would); the parser is total, so it never raises. -/
theorem claim_c1_header_layout (h : String) :
    (9 ≤ (split_header h).length ∧
      (parse_header h).isolate = (split_header h).getD 0 ("Unknown") ∧
      (parse_header h).subtype = (split_header h).getD 2 ("Unknown") ∧
      (parse_header h).segment = (split_header h).getD 3 ("Unknown") ∧
      (parse_header h).location = (split_header h).getD 4 ("Unknown") ∧
      (parse_header h).host = (split_header h).getD 5 ("Unknown") ∧
      (parse_header h).raw_date = (split_header h).getD 6 ("") ∧
      (parse_header h).clade = (split_header h).getD 7 ("Unknown") ∧
      (parse_header h).accession = (split_header h).getD 8 ("Unknown")) ∨
    ((split_header h).length < 9 ∧
      (parse_header h).isolate = (split_header h).getD 0 ("Unknown") ∧
      (parse_header h).subtype = (split_header h).getD 1 ("Unknown") ∧
      (parse_header h).segment = (split_header h).getD 2 ("Unknown") ∧
      (parse_header h).raw_date = (split_header h).getD 3 ("") ∧
      (parse_header h).accession = (split_header h).getD 4 ("Unknown") ∧
      (parse_header h).clade = (split_header h).getD 5 ("Unknown") ∧
      (parse_header h).host = infer_host_from_isolate ((split_header h).getD 0 ("Unknown")) ∧
      (parse_header h).location =
        extract_location_from_isolate ((split_header h).getD 0 ("Unknown")) ∧
      ((split_header h).length ≤ 3 → batch_parse_date ((parse_header h).raw_date) = none)) := by
  by_cases hn : 9 ≤ (split_header h).length
  · left
    refine ⟨hn, ?_, ?_, ?_, ?_, ?_, ?_, ?_, ?_⟩ <;> simp [parse_header, hn]
  · right
    have hlt : (split_header h).length < 9 := Nat.lt_of_not_le hn
    have hrd : (parse_header h).raw_date = (split_header h).getD 3 ("") := by
      simp [parse_header, hn]
    refine ⟨hlt, ?_, ?_, ?_, ?_, ?_, ?_, ?_, ?_, ?_⟩
    · simp [parse_header, hn]
    · simp [parse_header, hn]
    · simp [parse_header, hn]
    · exact hrd
    · simp [parse_header, hn]
    · simp [parse_header, hn]
    · simp [parse_header, hn]
    · simp [parse_header, hn]
    · intro hle
      rw [hrd, List.getD_eq_default _ _ hle]
      decide

/-- Claim C2: lifespan classification by the day span between the earliest
and latest parseable collection dates — Micro below 90 days, Seasonal from
90 to 270 days inclusive, Endemic above 270 days; collections with no
parseable dates, and empty collections, classify as Seasonal. -/
theorem claim_c2_lifespan_classification (df df₂ : List SRecord) (m M : Int)
    (hm : m ∈ df.filterMap (fun r => r.collection_date.map days_from_civil))
    (hM : M ∈ df.filterMap (fun r => r.collection_date.map days_from_civil))
    (hb : ∀ x ∈ df.filterMap (fun r => r.collection_date.map days_from_civil),
      m ≤ x ∧ x ≤ M)
    (h2 : df₂.filterMap (fun r => r.collection_date.map days_from_civil) = []) :
    calculate_lifespan_category df =
      (if M - m < 90 then ("Micro")
       else if M - m ≤ 270 then ("Seasonal") else ("Endemic")) ∧
    calculate_lifespan_category df₂ = ("Seasonal") ∧
    calculate_lifespan_category ([] : List SRecord) = ("Seasonal") := by
  refine ⟨?_, ?_, by decide⟩
  · have hne : df ≠ [] := by
      intro hdf
      rw [hdf] at hm
      simp at hm
    obtain ⟨d, rest, hds⟩ :=
      List.exists_cons_of_ne_nil (l := df.filterMap (fun r => r.collection_date.map days_from_civil))
        (by intro hnil; rw [hnil] at hm; simp at hm)
    have hmax : rest.foldl max d = M := by
      apply le_antisymm
      · exact (hb _ (by rw [hds]; exact foldl_max_mem d rest)).2
      · exact le_foldl_max d rest M (by rw [← hds]; exact hM)
    have hmin : rest.foldl min d = m := by
      apply le_antisymm
      · exact foldl_min_le d rest m (by rw [← hds]; exact hm)
      · exact (hb _ (by rw [hds]; exact foldl_min_mem d rest)).1
    rw [calculate_lifespan_category, if_neg (by simpa using hne), hds]
    simp only [hmax, hmin, MICRO_MAX, SEASONAL_MAX]
  · rw [calculate_lifespan_category, h2]
    by_cases hdf2 : df₂.isEmpty <;> simp [hdf2]

/-- Witness for C2: a two-record collection spanning exactly 90 days
(2024-01-01 to 2024-03-31) classifies Seasonal, and a one-record collection
with an unparseable date classifies Seasonal. -/
theorem claim_c2_lifespan_classification_witness :
    calculate_lifespan_category
        [⟨0, ("h"), some ⟨2024, 1, 1⟩⟩, ⟨1, ("h"), some ⟨2024, 3, 31⟩⟩] = ("Seasonal") ∧
    calculate_lifespan_category [⟨0, ("h"), none⟩] = ("Seasonal") := by
  have h := claim_c2_lifespan_classification
    [⟨0, ("h"), some ⟨2024, 1, 1⟩⟩, ⟨1, ("h"), some ⟨2024, 3, 31⟩⟩]
    [⟨0, ("h"), none⟩] 19723 19813 (by decide) (by decide) (by decide) (by decide)
  refine ⟨?_, h.2.1⟩
  have h1 := h.1
  norm_num at h1
  exact h1

/-- Claim C7 counterexample: the header `x|` has an empty raw subtype part,
no `H<digits>N<digits>` match, and therefore an empty `subtype_clean` — the
claim that `subtype_clean` is never the empty string is false. -/
theorem claim_c7_counterexample :
    (parse_header ("x|")).subtype = ("") ∧
    (parse_header ("x|")).subtype_clean = ("") := by
  constructor <;> rfl

/-- Claim C7 (amended): `subtype_clean` equals the leftmost
`H<digits>N<digits>` match of the raw subtype when one exists (and that
match really is an infix of the raw subtype with the `HxNx` shape), and
equals the raw subtype verbatim otherwise; consequently `subtype_clean` is
empty only when the raw subtype itself is the empty string. -/
theorem claim_c7_subtype_clean (h₁ h₂ h₃ : String) (m : List Char)
    (hs : hxnx_search_chars (parse_header h₁).subtype.data = some m)
    (hn : hxnx_search_chars (parse_header h₂).subtype.data = none)
    (he : (parse_header h₃).subtype_clean = ("")) :
    (parse_header h₁).subtype_clean = String.mk m ∧
    is_hxnx_shape m = true ∧
    (∃ pre post, (parse_header h₁).subtype.data = pre ++ m ++ post) ∧
    (parse_header h₂).subtype_clean = (parse_header h₂).subtype ∧
    (parse_header h₃).subtype = ("") := by
  rcases hxnx_search_some hs with ⟨hshape, hinfix⟩
  refine ⟨?_, hshape, hinfix, ?_, ?_⟩
  · rw [parse_header_subtype_clean, hs]
  · rw [parse_header_subtype_clean, hn]
  · rw [parse_header_subtype_clean h₃] at he
    match hsc : hxnx_search_chars (parse_header h₃).subtype.data with
    | some m₃ =>
      rw [hsc] at he
      rcases hxnx_search_some hsc with ⟨hshape₃, _⟩
      have : m₃ = [] := by
        have := congrArg String.data he
        simpa using this
      exact absurd this (is_hxnx_shape_ne_nil hshape₃)
    | none =>
      rw [hsc] at he
      exact he

/-- Witness for C7: a header whose subtype contains `H3N2` yields
`subtype_clean = "H3N2"`, a B-typed subtype falls back verbatim, and the
empty-subtype header `x|` shows the empty case propagating from an empty
raw subtype. -/
theorem claim_c7_subtype_clean_witness :
    (parse_header ("A/Cal/07/2009|A/_H3N2|HA|2009-04-09|EPI|6B.1A")).subtype_clean =
      ("H3N2") ∧
    (parse_header ("B/Vic/2/1987|B|NA|1987|EPI2|V1A")).subtype_clean = ("B") := by
  have h := claim_c7_subtype_clean
    ("A/Cal/07/2009|A/_H3N2|HA|2009-04-09|EPI|6B.1A")
    ("B/Vic/2/1987|B|NA|1987|EPI2|V1A")
    ("x|") (('H') :: ('3') :: ('N') :: ('2') :: [])
    (by decide) (by decide) (by decide)
  exact ⟨h.1, by rw [h.2.2.2.1]; rfl⟩

theorem find?_eq_some_split {α : Type} (p : α → Bool) (l : List α) (b : α)
    (h : l.find? p = some b) :
    ∃ pre post, l = pre ++ b :: post ∧ ∀ a ∈ pre, p a = false := by
  induction l with
  | nil => simp [List.find?] at h
  | cons x xs ih =>
    rw [List.find?] at h
    match hx : p x with
    | true =>
      rw [hx] at h
      exact ⟨[], xs, by simpa using (Option.some.inj h).symm ▸ rfl, by simp⟩
    | false =>
      rw [hx] at h
      rcases ih h with ⟨pre, post, heq, hpre⟩
      refine ⟨x :: pre, post, by rw [List.cons_append, heq], ?_⟩
      intro a ha
      rcases List.mem_cons.mp ha with h1 | h2
      · rw [h1]; exact hx
      · exact hpre a h2

/-- Claim C8 counterexample: in `A/duck` every segment is a host/type skip
keyword, yet the extractor returns `duck` (the second segment), not the
`Unknown` sentinel the claim requires. -/
theorem claim_c8_counterexample :
    extract_location_from_isolate ("A/duck") = ("duck") ∧
    (∀ p ∈ location_parts ("A/duck"), location_nonskip p = false) ∧
    extract_location_from_isolate ("A/duck") ≠ ("Unknown") := by
  refine ⟨rfl, by decide, by decide⟩

/-- Claim C8 (amended): location extraction splits the isolate name on `/`,
drops empty segments, and returns the first segment that is not a host/type
skip keyword (all earlier segments being skip keywords); when every segment
is skipped it returns the second segment if at least two segments exist,
and the `Unknown` sentinel only when fewer than two segments remain. -/
theorem claim_c8_location_extraction (iso₁ iso₂ iso₃ : String) (p : List Char)
    (hf : (location_parts iso₁).find? location_nonskip = some p)
    (hn₂ : (location_parts iso₂).find? location_nonskip = none)
    (hl₂ : 1 < (location_parts iso₂).length)
    (hn₃ : (location_parts iso₃).find? location_nonskip = none)
    (hl₃ : ¬ 1 < (location_parts iso₃).length) :
    extract_location_from_isolate iso₁ = String.mk p ∧
    location_nonskip p = true ∧
    (∃ pre post, location_parts iso₁ = pre ++ p :: post ∧
      ∀ q ∈ pre, location_nonskip q = false) ∧
    extract_location_from_isolate iso₂ = String.mk ((location_parts iso₂).getD 1 []) ∧
    extract_location_from_isolate iso₃ = ("Unknown") := by
  have hne₁ : ¬ (iso₁ = ("")) := by
    intro h
    rw [h] at hf
    rw [(by decide : (location_parts ("")).find? location_nonskip = none)] at hf
    exact absurd hf (by simp)
  have hne₂ : ¬ (iso₂ = ("")) := by
    intro h
    rw [h] at hl₂
    rw [(by decide : (location_parts ("")).length = 0)] at hl₂
    omega
  refine ⟨?_, List.find?_some hf, find?_eq_some_split _ _ _ hf, ?_, ?_⟩
  · rw [extract_location_from_isolate, if_neg hne₁]
    simp only [hf]
  · rw [extract_location_from_isolate, if_neg hne₂]
    simp only [hn₂, if_pos hl₂]
  · by_cases h : iso₃ = ("")
    · rw [extract_location_from_isolate, if_pos h]
    · rw [extract_location_from_isolate, if_neg h]
      simp only [hn₃, if_neg hl₃]

/-- Witness for C8: `A/duck/Novosibirsk/7/2024` skips `A` and `duck` and
returns `Novosibirsk`; in `A/duck` every segment is skipped and the second
segment `duck` is returned; in `duck` every segment is skipped and only one
segment exists, so `Unknown` is returned. -/
theorem claim_c8_location_extraction_witness :
    extract_location_from_isolate ("A/duck/Novosibirsk/7/2024") = ("Novosibirsk") ∧
    extract_location_from_isolate ("A/duck") = ("duck") ∧
    extract_location_from_isolate ("duck") = ("Unknown") := by
  have h := claim_c8_location_extraction
    ("A/duck/Novosibirsk/7/2024") ("A/duck") ("duck")
    (String.data ("Novosibirsk"))
    (by decide) (by decide) (by decide) (by decide) (by decide)
  exact ⟨h.1, by rw [h.2.2.2.1]; rfl, h.2.2.2.2⟩

/-- Claim C9 counterexample: a 10-row collection whose `host` field is
populated in exactly one row (exactly 10 percent) is reported available,
refuting the claim that strictly more than 10 percent is required. -/
theorem claim_c9_counterexample :
    auto_detect_available_fields
      ⟨[("host")],
       ([(("host"), some ("Avian"))] : Row) ::
         List.replicate 9 ([(("host"), some ("Unknown"))] : Row)⟩ = [("host")] ∧
    (([(("host"), some ("Avian"))] : Row) ::
        List.replicate 9 ([(("host"), some ("Unknown"))] : Row)).countP
        (fun row => populated_cell (get_cell row ("host"))) * 10 =
      (([(("host"), some ("Avian"))] : Row) ::
          List.replicate 9 ([(("host"), some ("Unknown"))] : Row)).length := by
  constructor <;> decide

/-- Claim C9 (amended): for a nonempty collection, field discovery reports
a field as available if and only if it is a column other than `sequence` /
`sequence_hash` and at least 10 percent of the records (`10·n ≥ N`) have a
non-null, non-`Unknown`, non-empty value for it. -/
theorem claim_c9_field_discovery (df : DataFrame) (hne : ¬ df.rows.isEmpty = true)
    (f : String) :
    f ∈ auto_detect_available_fields df ↔
      (f ∈ df.cols ∧ ¬(f = ("sequence") ∨ f = ("sequence_hash")) ∧
        df.rows.length ≤ 10 * df.rows.countP (fun row => populated_cell (get_cell row f))) := by
  rw [auto_detect_available_fields, if_neg hne, List.mem_filter]
  simp [and_assoc, not_or]

/-- Witness for C9: in a one-row collection with a populated `host` column,
`host` is reported available. -/
theorem claim_c9_field_discovery_witness :
    ("host") ∈ auto_detect_available_fields
      ⟨[("host")], [([(("host"), some ("Avian"))] : Row)]⟩ := by
  exact (claim_c9_field_discovery
    ⟨[("host")], [([(("host"), some ("Avian"))] : Row)]⟩ (by decide) ("host")).mpr
    (by refine ⟨by decide, by decide, by decide⟩)

/-- Claim C4: the Filter Engine returns a sublist of the input rows with
the columns unchanged (the input collection itself is never modified — the
embedding is pure and the source returns a fresh copy), and applying the
same rule list to its own output reproduces that output. -/
theorem claim_c4_filter_subset_idempotent (reE : String → Option (String → Bool))
    (df : DataFrame) (rules : List FilterRule) :
    (apply_header_component_filters reE df rules).rows.Sublist df.rows ∧
    (apply_header_component_filters reE df rules).cols = df.cols ∧
    apply_header_component_filters reE (apply_header_component_filters reE df rules) rules =
      apply_header_component_filters reE df rules := by
  by_cases h : (df.rows.isEmpty || rules.isEmpty) = true
  · rw [apply_header_component_filters, if_pos h]
    exact ⟨List.Sublist.refl _, rfl, by rw [apply_header_component_filters, if_pos h]⟩
  · have hsplit := h
    simp only [Bool.or_eq_true, not_or] at hsplit
    rw [apply_header_component_filters, if_neg h]
    refine ⟨List.filter_sublist _, rfl, ?_⟩
    rw [apply_header_component_filters]
    by_cases hf : (df.rows.filter
        (fun row => rules.all (fun rule => rule_test reE df.cols rule row))).isEmpty = true
    · rw [if_pos (by rw [Bool.or_eq_true]; left; exact hf)]
    · rw [if_neg (by simp only [Bool.or_eq_true, not_or]; exact ⟨hf, hsplit.2⟩)]
      have hff : (df.rows.filter
            (fun row => rules.all (fun rule => rule_test reE df.cols rule row))).filter
            (fun row => rules.all (fun rule => rule_test reE df.cols rule row)) =
          df.rows.filter (fun row => rules.all (fun rule => rule_test reE df.cols rule row)) :=
        List.filter_eq_self.mpr (fun a ha => (List.mem_filter.mp ha).2)
      simp only []
      rw [hff]

theorem rule_test_regex_invalid (reE : String → Option (String → Bool))
    (cols : List String) (r : FilterRule) (row : Row)
    (h1 : r.operator = ("regex")) (h2 : reE (fvalue_str r.value) = none) :
    rule_test reE cols r row = true := by
  rw [rule_test]
  by_cases hc : cols.contains r.field
  case neg => rw [if_neg hc]
  rw [if_pos hc]
  have hbm : build_mask reE r.operator r.value = none := by
    rw [h1]
    have : build_mask reE ("regex") r.value =
        (match reE (fvalue_str r.value) with
         | some matcher => some (fun cell => matcher (cell_str cell))
         | none => none) := rfl
    rw [this, h2]
  rw [hbm]

theorem rule_test_unknown_field (reE : String → Option (String → Bool))
    (cols : List String) (r : FilterRule) (row : Row)
    (h : ¬ cols.contains r.field = true) :
    rule_test reE cols r row = true := by
  rw [rule_test, if_neg h]

/-- Inserting a rule whose row-level test is constantly true does not
change the filter result. -/
theorem apply_insert_trivial_rule (reE : String → Option (String → Bool))
    (df : DataFrame) (l1 l2 : List FilterRule) (r : FilterRule)
    (hr : ∀ row, rule_test reE df.cols r row = true) :
    apply_header_component_filters reE df (l1 ++ r :: l2) =
      apply_header_component_filters reE df (l1 ++ l2) := by
  by_cases hrows : df.rows.isEmpty = true
  · rw [apply_header_component_filters, if_pos (by rw [Bool.or_eq_true]; left; exact hrows),
      apply_header_component_filters, if_pos (by rw [Bool.or_eq_true]; left; exact hrows)]
  · have hall : ∀ row, (l1 ++ r :: l2).all (fun rule => rule_test reE df.cols rule row) =
        (l1 ++ l2).all (fun rule => rule_test reE df.cols rule row) := by
      intro row
      rw [List.all_append, List.all_append, List.all_cons, hr row, Bool.true_and]
    by_cases hl : (l1 ++ l2).isEmpty = true
    · have h1 : l1 = [] := by
        rcases List.append_eq_nil.mp (List.isEmpty_iff.mp hl) with ⟨ha, _⟩; exact ha
      have h2 : l2 = [] := by
        rcases List.append_eq_nil.mp (List.isEmpty_iff.mp hl) with ⟨_, hb⟩; exact hb
      subst h1; subst h2
      rw [apply_header_component_filters,
        if_neg (by simp only [Bool.or_eq_true, not_or]; exact ⟨hrows, by simp⟩),
        apply_header_component_filters, if_pos (by rw [Bool.or_eq_true]; right; rfl)]
      have : df.rows.filter (fun row => [r].all (fun rule => rule_test reE df.cols rule row)) =
          df.rows := by
        apply List.filter_eq_self.mpr
        intro a _
        rw [List.all_cons, hr a, List.all_nil]
        rfl
      simp only [List.nil_append]
      rw [this]
    · rw [apply_header_component_filters,
        if_neg (by simp only [Bool.or_eq_true, not_or]; exact ⟨hrows, by simp⟩),
        apply_header_component_filters,
        if_neg (by simp only [Bool.or_eq_true, not_or]; exact ⟨hrows, hl⟩)]
      have : df.rows.filter (fun row => (l1 ++ r :: l2).all (fun rule => rule_test reE df.cols rule row)) =
          df.rows.filter (fun row => (l1 ++ l2).all (fun rule => rule_test reE df.cols rule row)) :=
        List.filter_congr (fun a _ => hall a)
      rw [this]

/-- Claim C6: a regex rule whose pattern the regex engine rejects, and any
rule whose field is not a column of the collection, are skipped: the filter
result equals the result of applying the remaining rules (and the filter is
a total function, so such rules can never make it fail). -/
theorem claim_c6_invalid_rules_skipped (reE : String → Option (String → Bool))
    (df : DataFrame) (l1 l2 l3 l4 : List FilterRule) (r1 r2 : FilterRule)
    (h1 : r1.operator = ("regex")) (h2 : reE (fvalue_str r1.value) = none)
    (h3 : ¬ df.cols.contains r2.field = true) :
    apply_header_component_filters reE df (l1 ++ r1 :: l2) =
      apply_header_component_filters reE df (l1 ++ l2) ∧
    apply_header_component_filters reE df (l3 ++ r2 :: l4) =
      apply_header_component_filters reE df (l3 ++ l4) :=
  ⟨apply_insert_trivial_rule reE df l1 l2 r1
      (fun row => rule_test_regex_invalid reE df.cols r1 row h1 h2),
   apply_insert_trivial_rule reE df l3 l4 r2
      (fun row => rule_test_unknown_field reE df.cols r2 row h3)⟩

/-- Witness for C6: with a regex engine that rejects the pattern `[`, a
one-row collection filtered by an invalid-regex rule plus an `equals` rule
gives the same result as the `equals` rule alone, and a rule on a missing
column is likewise dropped. -/
theorem claim_c6_invalid_rules_skipped_witness :
    apply_header_component_filters (fun _ => none)
        ⟨[("subtype_clean")], [([(("subtype_clean"), some ("H3N2"))] : Row)]⟩
        (⟨("subtype_clean"), ("regex"), FValue.scalar ("[")⟩ ::
          [⟨("subtype_clean"), ("equals"), FValue.scalar ("H3N2")⟩]) =
      apply_header_component_filters (fun _ => none)
        ⟨[("subtype_clean")], [([(("subtype_clean"), some ("H3N2"))] : Row)]⟩
        [⟨("subtype_clean"), ("equals"), FValue.scalar ("H3N2")⟩] ∧
    apply_header_component_filters (fun _ => none)
        ⟨[("subtype_clean")], [([(("subtype_clean"), some ("H3N2"))] : Row)]⟩
        (⟨("missing_field"), ("equals"), FValue.scalar ("x")⟩ ::
          [⟨("subtype_clean"), ("equals"), FValue.scalar ("H3N2")⟩]) =
      apply_header_component_filters (fun _ => none)
        ⟨[("subtype_clean")], [([(("subtype_clean"), some ("H3N2"))] : Row)]⟩
        [⟨("subtype_clean"), ("equals"), FValue.scalar ("H3N2")⟩] := by
  have h := claim_c6_invalid_rules_skipped (fun _ => none)
    ⟨[("subtype_clean")], [([(("subtype_clean"), some ("H3N2"))] : Row)]⟩
    [] [⟨("subtype_clean"), ("equals"), FValue.scalar ("H3N2")⟩]
    [] [⟨("subtype_clean"), ("equals"), FValue.scalar ("H3N2")⟩]
    ⟨("subtype_clean"), ("regex"), FValue.scalar ("[")⟩
    ⟨("missing_field"), ("equals"), FValue.scalar ("x")⟩
    rfl rfl (by decide)
  exact ⟨h.1, h.2⟩

theorem np_argmin_lt_length (l : List Nat) (h : l ≠ []) : np_argmin l < l.length := by
  induction l using np_argmin.induct with
  | case1 => exact absurd rfl h
  | case2 x => simp [np_argmin]
  | case3 x y t j hlt ih =>
    rw [np_argmin]
    rw [if_pos hlt]
    have := ih (by simp)
    simp only [List.length_cons] at this ⊢
    omega
  | case4 x y t j hge ih =>
    rw [np_argmin]
    rw [if_neg hge]
    simp

theorem np_argmin_le (l : List Nat) : ∀ j, j < l.length →
    l.getD (np_argmin l) 0 ≤ l.getD j 0 := by
  induction l using np_argmin.induct with
  | case1 => intro j hj; simp at hj
  | case2 x =>
    intro j hj
    have : j = 0 := by simpa using hj
    simp [np_argmin, this]
  | case3 x y t j hlt ih =>
    intro j hj
    rw [np_argmin]
    rw [if_pos hlt, List.getD_cons_succ]
    match j with
    | 0 => rw [List.getD_cons_zero]; exact le_of_lt hlt
    | j' + 1 =>
      rw [List.getD_cons_succ]
      exact ih j' (by simpa using hj)
  | case4 x y t j hge ih =>
    intro j hj
    rw [np_argmin]
    rw [if_neg hge, List.getD_cons_zero]
    match j with
    | 0 => rw [List.getD_cons_zero]
    | j' + 1 =>
      rw [List.getD_cons_succ]
      have h1 : x ≤ (y :: t).getD (np_argmin (y :: t)) 0 := Nat.le_of_not_lt hge
      exact le_trans h1 (ih j' (by simpa using hj))

theorem getD_slice (l : List Nat) (s len i : Nat) (hi : i < len) (_hin : s + i < l.length) :
    ((l.drop s).take len).getD i 0 = l.getD (s + i) 0 := by
  rw [List.getD_eq_getElem?_getD, List.getD_eq_getElem?_getD,
    List.getElem?_take, if_pos hi, List.getElem?_drop]

/-- For one pair of consecutive accepted peaks at distance at least 2 and
in range, the recorded trough lies strictly between the peaks and carries
the minimum count of the open interval. -/
theorem trough_pair_spec (counts : List Nat) (s e : Nat) (hse : s + 2 ≤ e)
    (he : e < counts.length) :
    s < pair_trough counts s e ∧ pair_trough counts s e < e ∧
    ∀ j, s < j → j < e → counts.getD (pair_trough counts s e) 0 ≤ counts.getD j 0 := by
  have hlseg : ((counts.drop s).take (e + 1 - s)).length = e + 1 - s := by
    rw [List.length_take, List.length_drop]
    omega
  have hpt : pair_trough counts s e = s + 1 + np_argmin
      ((((counts.drop s).take (e + 1 - s)).drop 1).take (e + 1 - s - 2)) := by
    rw [pair_trough]
    simp only [hlseg]
  have hlinter : ((((counts.drop s).take (e + 1 - s)).drop 1).take (e + 1 - s - 2)).length =
      e + 1 - s - 2 := by
    rw [List.length_take, List.length_drop, hlseg]
    omega
  have hinterD : ∀ m, m < e + 1 - s - 2 →
      ((((counts.drop s).take (e + 1 - s)).drop 1).take (e + 1 - s - 2)).getD m 0 =
        counts.getD (s + 1 + m) 0 := by
    intro m hm
    rw [getD_slice _ 1 (e + 1 - s - 2) m hm (by rw [hlseg]; omega)]
    rw [getD_slice _ s (e + 1 - s) (1 + m) (by omega) (by omega)]
    have : s + (1 + m) = s + 1 + m := by omega
    rw [this]
  have hne : (((counts.drop s).take (e + 1 - s)).drop 1).take (e + 1 - s - 2) ≠ [] := by
    intro hh
    have := congrArg List.length hh
    rw [hlinter] at this
    simp at this
    omega
  have ha := np_argmin_lt_length _ hne
  rw [hlinter] at ha
  refine ⟨by rw [hpt]; omega, by rw [hpt]; omega, ?_⟩
  intro j hj1 hj2
  have hm : j - s - 1 < e + 1 - s - 2 := by omega
  have h1 := np_argmin_le
    ((((counts.drop s).take (e + 1 - s)).drop 1).take (e + 1 - s - 2))
    (j - s - 1) (by rw [hlinter]; exact hm)
  rw [hinterD _ ha, hinterD _ hm] at h1
  have hj : s + 1 + (j - s - 1) = j := by omega
  rw [hj] at h1
  rw [hpt]
  exact h1

/-- Full specification of the trough loop under the peak-separation and
range contracts: one trough per consecutive pair, strictly between the
pair, carrying the interval minimum. -/
theorem troughs_go_spec (counts : List Nat) (peaks : List Nat)
    (hchain : List.Chain' (fun s e => s + 2 ≤ e) peaks)
    (hrange : ∀ p ∈ peaks, p < counts.length) :
    (troughs_go counts peaks).length = peaks.length - 1 ∧
    (∀ k, k + 1 < peaks.length →
      peaks.getD k 0 < (troughs_go counts peaks).getD k 0 ∧
      (troughs_go counts peaks).getD k 0 < peaks.getD (k + 1) 0 ∧
      ∀ j, peaks.getD k 0 < j → j < peaks.getD (k + 1) 0 →
        counts.getD ((troughs_go counts peaks).getD k 0) 0 ≤ counts.getD j 0) := by
  induction peaks with
  | nil => exact ⟨rfl, by intro k hk; simp at hk⟩
  | cons p tail ih =>
    cases tail with
    | nil =>
      refine ⟨by simp [troughs_go], by intro k hk; simp at hk⟩
    | cons q rest =>
      have hpq : p + 2 ≤ q := (List.chain'_cons.mp hchain).1
      have hch' : List.Chain' (fun s e => s + 2 ≤ e) (q :: rest) :=
        (List.chain'_cons.mp hchain).2
      have hq : q < counts.length := hrange q (by simp)
      have hguard : 2 < ((counts.drop p).take (q + 1 - p)).length := by
        rw [List.length_take, List.length_drop]
        omega
      have hstep : troughs_go counts (p :: q :: rest) =
          pair_trough counts p q :: troughs_go counts (q :: rest) := by
        simp only [troughs_go, if_pos hguard, List.singleton_append]
      obtain ⟨ihlen, ihpos⟩ := ih hch' (fun x hx => hrange x (List.mem_cons_of_mem _ hx))
      constructor
      · rw [hstep]
        simp only [List.length_cons] at ihlen ⊢
        omega
      · intro k hk
        match k with
        | 0 =>
          rw [hstep]
          simp only [List.getD_cons_zero, List.getD_cons_succ]
          exact trough_pair_spec counts p q hpq hq
        | k' + 1 =>
          rw [hstep]
          simp only [List.getD_cons_succ]
          exact ihpos k' (by simpa using hk)

/-- Claim C3: under the detector's peak contracts (consecutive accepted
peaks separated by at least 2 periods, indices in range — the `distance=2`
constraint of `find_peaks`), the trough pass produces exactly one trough
per pair of consecutive accepted peaks, located strictly between them at a
position of minimum count over the open interval; with fewer than 2 peaks
there are no troughs; and a series of fewer than 3 periods yields empty
peaks, empty troughs and wave count 0 for every peak-finding backend. -/
theorem claim_c3_trough_detection (counts counts₂ : List Nat) (peaks peaks₂ : List Nat)
    (fp : List Nat → List Nat) (df : List SRecord)
    (hchain : List.Chain' (fun s e => s + 2 ≤ e) peaks)
    (hrange : ∀ p ∈ peaks, p < counts.length)
    (h2 : peaks₂.length < 2)
    (hdeg : (build_weekly_counts df).length < 3) :
    (find_troughs_between_peaks counts peaks).length = peaks.length - 1 ∧
    (∀ k, k + 1 < peaks.length →
      peaks.getD k 0 < (find_troughs_between_peaks counts peaks).getD k 0 ∧
      (find_troughs_between_peaks counts peaks).getD k 0 < peaks.getD (k + 1) 0 ∧
      ∀ j, peaks.getD k 0 < j → j < peaks.getD (k + 1) 0 →
        counts.getD ((find_troughs_between_peaks counts peaks).getD k 0) 0 ≤
          counts.getD j 0) ∧
    find_troughs_between_peaks counts₂ peaks₂ = [] ∧
    (detect_epi_waves fp df).peaks = [] ∧
    (detect_epi_waves fp df).troughs = [] ∧
    (detect_epi_waves fp df).wave_count = 0 := by
  have hdet : detect_epi_waves fp df = ⟨[], [], 0, build_weekly_counts df⟩ := by
    simp only [detect_epi_waves]
    rw [if_pos hdeg]
  obtain ⟨hlen, hpos⟩ := troughs_go_spec counts peaks hchain hrange
  by_cases hp2 : peaks.length < 2
  · refine ⟨?_, ?_, ?_, ?_, ?_, ?_⟩
    · rw [find_troughs_between_peaks, if_pos hp2]
      simp only [List.length_nil]
      omega
    · intro k hk
      omega
    · rw [find_troughs_between_peaks, if_pos h2]
    · rw [hdet]
    · rw [hdet]
    · rw [hdet]
  · have heq : find_troughs_between_peaks counts peaks = troughs_go counts peaks := by
      rw [find_troughs_between_peaks, if_neg hp2]
    refine ⟨by rw [heq]; exact hlen, by rw [heq]; exact hpos, ?_, ?_, ?_, ?_⟩
    · rw [find_troughs_between_peaks, if_pos h2]
    · rw [hdet]
    · rw [hdet]
    · rw [hdet]

/-- Witness for C3: on the spec's example series
`[2,3,2,15,4,2,1,18,3,2]` with accepted peaks at 3 and 7, exactly one
trough is produced, and the degenerate conjuncts hold for an empty series
and peak list. -/
theorem claim_c3_trough_detection_witness :
    (find_troughs_between_peaks ([2, 3, 2, 15, 4, 2, 1, 18, 3, 2]) ([3, 7])).length = 1 ∧
    find_troughs_between_peaks ([2, 3, 2, 15, 4, 2, 1, 18, 3, 2]) ([3, 7]) = [6] := by
  have h := claim_c3_trough_detection ([2, 3, 2, 15, 4, 2, 1, 18, 3, 2]) []
    ([3, 7]) [] (fun _ => []) []
    (List.chain'_cons.mpr ⟨by omega, List.chain'_singleton _⟩)
    (by decide) (by decide) (by decide)
  exact ⟨h.1, by decide⟩

theorem mem_insert_by_date {x r : SRecord} {l : List SRecord}
    (h : x ∈ insert_by_date r l) : x = r ∨ x ∈ l := by
  induction l with
  | nil => simpa [insert_by_date] using h
  | cons y ys ih =>
    rw [insert_by_date] at h
    by_cases hc : date_key r ≤ date_key y
    · rw [if_pos hc] at h
      exact List.mem_cons.mp h
    · rw [if_neg hc] at h
      rcases List.mem_cons.mp h with h1 | h2
      · exact Or.inr (by rw [h1]; exact List.mem_cons_self _ _)
      · rcases ih h2 with h3 | h4
        · exact Or.inl h3
        · exact Or.inr (List.mem_cons_of_mem _ h4)

theorem mem_sort_by_date {x : SRecord} {l : List SRecord}
    (h : x ∈ sort_by_date l) : x ∈ l := by
  induction l with
  | nil => simp [sort_by_date] at h
  | cons y ys ih =>
    rw [sort_by_date] at h
    rcases mem_insert_by_date h with h1 | h2
    · rw [h1]; exact List.mem_cons_self _ _
    · exact List.mem_cons_of_mem _ (ih h2)

theorem mem_dedup_by_key {κ : Type} [DecidableEq κ] (key : SRecord → κ)
    {x : SRecord} : ∀ (seen : List κ) (l : List SRecord),
    x ∈ dedup_by_key key seen l → x ∈ l := by
  intro seen l
  induction l generalizing seen with
  | nil => intro h; simp [dedup_by_key] at h
  | cons y ys ih =>
    intro h
    rw [dedup_by_key] at h
    by_cases hc : key y ∈ seen
    · rw [if_pos hc] at h
      exact List.mem_cons_of_mem _ (ih _ h)
    · rw [if_neg hc] at h
      rcases List.mem_cons.mp h with h1 | h2
      · rw [h1]; exact List.mem_cons_self _ _
      · exact List.mem_cons_of_mem _ (ih _ h2)

theorem mem_sentinel_sampling (period_of : PDate → Int) (df : List SRecord)
    {r : SRecord} (h : r ∈ sentinel_sampling period_of df) :
    r ∈ df ∧ r.collection_date.isSome = true := by
  by_cases hdf : df.isEmpty = true
  · rw [sentinel_sampling, if_pos hdf] at h
    rw [List.isEmpty_iff.mp hdf] at h
    simp at h
  · rw [sentinel_sampling, if_neg hdf] at h
    have h1 := mem_dedup_by_key _ _ _ h
    have h2 := mem_sort_by_date h1
    exact ⟨(List.mem_filter.mp h2).1, (List.mem_filter.mp h2).2⟩

theorem mem_wave_bookends {r : SRecord} {valid : List SRecord}
    (h : r ∈ wave_bookends valid) : r ∈ valid := by
  rw [wave_bookends] at h
  rcases List.mem_append.mp h with h1 | h2
  · exact List.mem_of_mem_take h1
  · split at h2
    · exact List.mem_of_mem_drop h2
    · simp at h2

theorem mem_wave_per_period {r : SRecord} {df : List SRecord} {selected : List Int}
    (h : r ∈ wave_per_period df selected) :
    r ∈ df ∧ r.collection_date.isSome = true := by
  rw [wave_per_period] at h
  rcases List.mem_filterMap.mp h with ⟨p, _, hfind⟩
  have hmem := List.mem_of_find?_eq_some hfind
  have hpred := List.find?_some hfind
  have hmap : r.collection_date.map week_of = some p := of_decide_eq_true hpred
  rcases Option.map_eq_some'.mp hmap with ⟨d, hd, _⟩
  exact ⟨hmem, by rw [hd]; rfl⟩

theorem mem_extract_wave_representatives (df : List SRecord) (wa : WaveAnalysis)
    {r : SRecord} (h : r ∈ extract_wave_representatives df wa) :
    r ∈ df ∧ r.collection_date.isSome = true := by
  by_cases hdf : df.isEmpty = true
  · rw [extract_wave_representatives, if_pos hdf] at h
    simp at h
  · rw [extract_wave_representatives, if_neg hdf] at h
    split at h
    · simp at h
    · have h1 := mem_dedup_by_key _ _ _ h
      rcases List.mem_append.mp h1 with h2 | h3
      · have hval := mem_wave_bookends h2
        exact ⟨(List.mem_filter.mp hval).1, (List.mem_filter.mp hval).2⟩
      · exact mem_wave_per_period h3

theorem mem_quarterly_or_wave (fp : List Nat → List Nat) (df : List SRecord)
    {r : SRecord} (h : r ∈ quarterly_or_wave_sampling fp df) :
    r ∈ df ∧ r.collection_date.isSome = true := by
  by_cases hdf : df.isEmpty = true
  · rw [quarterly_or_wave_sampling, if_pos hdf] at h
    rw [List.isEmpty_iff.mp hdf] at h
    simp at h
  · simp only [quarterly_or_wave_sampling] at h
    rw [if_neg hdf] at h
    split at h
    · exact mem_extract_wave_representatives _ _ h
    · exact mem_sentinel_sampling _ _ h

/-- Claim C10: every record in the Adaptive Sampler's representative
subset — under every category (weekly, monthly, quarterly/wave-based, and
auto-detected) and every peak-finding backend — comes from the input and
has a successfully parsed collection date; records with a missing or
unparseable date are always excluded. -/
theorem claim_c10_sampler_excludes_undated (fp : List Nat → List Nat)
    (df : List SRecord) (category : Option String) (r : SRecord)
    (h : r ∈ apply_proportionality_rule fp df category) :
    r ∈ df ∧ r.collection_date.isSome = true := by
  by_cases hdf : df.isEmpty = true
  · rw [apply_proportionality_rule, if_pos hdf] at h
    rw [List.isEmpty_iff.mp hdf] at h
    simp at h
  · simp only [apply_proportionality_rule] at h
    rw [if_neg hdf] at h
    split at h
    · exact mem_sentinel_sampling _ _ h
    · split at h
      · exact mem_sentinel_sampling _ _ h
      · exact mem_quarterly_or_wave _ _ h

/-- Witness for C10: in a two-record collection where the second record has
no parsed date, weekly sampling returns exactly the dated record, which is
in the input and carries a date. -/
theorem claim_c10_sampler_excludes_undated_witness :
    (⟨0, ("h"), some ⟨2024, 1, 10⟩⟩ : SRecord) ∈
      apply_proportionality_rule (fun _ => [])
        [⟨0, ("h"), some ⟨2024, 1, 10⟩⟩, ⟨1, ("h"), none⟩] (some ("Micro")) ∧
    (⟨0, ("h"), some ⟨2024, 1, 10⟩⟩ : SRecord) ∈
      [(⟨0, ("h"), some ⟨2024, 1, 10⟩⟩ : SRecord), ⟨1, ("h"), none⟩] ∧
    (⟨0, ("h"), some ⟨2024, 1, 10⟩⟩ : SRecord).collection_date.isSome = true := by
  have hm : (⟨0, ("h"), some ⟨2024, 1, 10⟩⟩ : SRecord) ∈
      apply_proportionality_rule (fun _ => [])
        [⟨0, ("h"), some ⟨2024, 1, 10⟩⟩, ⟨1, ("h"), none⟩] (some ("Micro")) := by decide
  have h := claim_c10_sampler_excludes_undated (fun _ => [])
    [⟨0, ("h"), some ⟨2024, 1, 10⟩⟩, ⟨1, ("h"), none⟩] (some ("Micro"))
    ⟨0, ("h"), some ⟨2024, 1, 10⟩⟩ hm
  exact ⟨hm, h.1, h.2⟩

theorem digit_char_isDigit (k : Nat) (hk : k < 10) : (digit_char k).isDigit = true := by
  interval_cases k <;> decide

theorem digit_char_toNat (k : Nat) (hk : k < 10) : (digit_char k).toNat - 48 = k := by
  interval_cases k <;> decide

theorem digits_rev_aux_all : ∀ (fuel n : Nat), ∀ c ∈ digits_rev_aux fuel n,
    c.isDigit = true := by
  intro fuel
  induction fuel with
  | zero =>
    intro n c hc
    match n with
    | 0 => simp [digits_rev_aux] at hc
    | _ + 1 => simp [digits_rev_aux] at hc
  | succ fuel ih =>
    intro n c hc
    match n with
    | 0 => simp [digits_rev_aux] at hc
    | m + 1 =>
      rw [digits_rev_aux] at hc
      rcases List.mem_cons.mp hc with h1 | h2
      · rw [h1]; exact digit_char_isDigit _ (Nat.mod_lt _ (by omega))
      · exact ih ((m + 1) / 10) c h2

theorem digits_rev_all (n : Nat) : ∀ c ∈ digits_rev n, c.isDigit = true :=
  digits_rev_aux_all n n

theorem valr_digits_rev_aux : ∀ (fuel n : Nat), n ≤ fuel →
    (digits_rev_aux fuel n).foldr (fun c acc => 10 * acc + (c.toNat - 48)) 0 = n := by
  intro fuel
  induction fuel with
  | zero =>
    intro n hn
    have : n = 0 := by omega
    rw [this]
    rfl
  | succ fuel ih =>
    intro n hn
    match n with
    | 0 => rfl
    | m + 1 =>
      have hdiv : (m + 1) / 10 ≤ fuel := by
        have := Nat.div_lt_self (show 0 < m + 1 by omega) (show 1 < 10 by omega)
        omega
      rw [digits_rev_aux, List.foldr_cons, ih ((m + 1) / 10) hdiv,
        digit_char_toNat _ (Nat.mod_lt _ (by omega))]
      omega

theorem valr_digits_rev (n : Nat) :
    (digits_rev n).foldr (fun c acc => 10 * acc + (c.toNat - 48)) 0 = n :=
  valr_digits_rev_aux n n (le_refl n)

theorem digits_rev_aux_length : ∀ (fuel n k : Nat), n < 10 ^ k →
    (digits_rev_aux fuel n).length ≤ k := by
  intro fuel
  induction fuel with
  | zero =>
    intro n k _
    match n with
    | 0 => simp [digits_rev_aux]
    | _ + 1 => simp [digits_rev_aux]
  | succ fuel ih =>
    intro n k hk
    match n with
    | 0 => simp [digits_rev_aux]
    | m + 1 =>
      rw [digits_rev_aux]
      match k with
      | 0 => simp at hk
      | k' + 1 =>
        simp only [List.length_cons]
        have h10 : (10 : Nat) ^ (k' + 1) = 10 ^ k' * 10 := by ring
        have hdiv : (m + 1) / 10 < 10 ^ k' := by
          rw [Nat.div_lt_iff_lt_mul (by omega : (0 : Nat) < 10)]
          omega
        have := ih ((m + 1) / 10) k' hdiv
        omega

theorem digits_rev_length (n k : Nat) (h : n < 10 ^ k) : (digits_rev n).length ≤ k :=
  digits_rev_aux_length n n k h

theorem nat_digits_all (n : Nat) : ∀ c ∈ nat_digits n, c.isDigit = true := by
  rw [nat_digits]
  split
  · intro c hc
    rw [List.mem_singleton.mp hc]
    decide
  · intro c hc
    exact digits_rev_all n c (List.mem_reverse.mp hc)

theorem nat_digits_ne_nil (n : Nat) : nat_digits n ≠ [] := by
  rw [nat_digits]
  split
  · simp
  · rename_i hn
    match n with
    | 0 => exact absurd rfl hn
    | m + 1 =>
      simp [digits_rev, digits_rev_aux]

theorem digits_to_nat_nat_digits (n : Nat) : digits_to_nat (nat_digits n) = n := by
  rw [nat_digits]
  split
  · rename_i hn
    rw [hn]
    rfl
  · rw [digits_to_nat, List.foldl_reverse]
    exact valr_digits_rev n

theorem nat_digits_length_le (n k : Nat) (hk : 1 ≤ k) (h : n < 10 ^ k) :
    (nat_digits n).length ≤ k := by
  rw [nat_digits]
  split
  · simpa using hk
  · rw [List.length_reverse]
    exact digits_rev_length n k h

theorem pad_num_all (w n : Nat) : ∀ c ∈ pad_num w n, c.isDigit = true := by
  intro c hc
  rw [pad_num] at hc
  rcases List.mem_append.mp hc with h1 | h2
  · rw [List.eq_of_mem_replicate h1]; decide
  · exact nat_digits_all n c h2

theorem pad_num_length (w n : Nat) (h : (nat_digits n).length ≤ w) :
    (pad_num w n).length = w := by
  rw [pad_num, List.length_append, List.length_replicate]
  omega

theorem pad_num_ne_nil (w n : Nat) : pad_num w n ≠ [] := by
  rw [pad_num]
  intro hh
  rcases List.append_eq_nil.mp hh with ⟨_, h2⟩
  exact nat_digits_ne_nil n h2

theorem foldl_zeros (k : Nat) (l : List Char) :
    (List.replicate k '0' ++ l).foldl (fun a c => 10 * a + (c.toNat - 48)) 0 =
      l.foldl (fun a c => 10 * a + (c.toNat - 48)) 0 := by
  induction k with
  | zero => rfl
  | succ k ih =>
    rw [List.replicate_succ, List.cons_append, List.foldl_cons]
    simpa using ih

theorem digits_to_nat_pad (w n : Nat) : digits_to_nat (pad_num w n) = n := by
  rw [pad_num, digits_to_nat, foldl_zeros]
  exact digits_to_nat_nat_digits n

theorem all_digits_of (l : List Char) (hne : l ≠ []) (h : ∀ c ∈ l, c.isDigit = true) :
    all_digits l = true := by
  rw [all_digits, Bool.and_eq_true]
  constructor
  · simp [List.isEmpty_iff, hne]
  · exact List.all_eq_true.mpr h

theorem isDigit_ne_of (x : Char) (h : x.isDigit = true) : x ≠ '-' := by
  intro hc
  rw [hc] at h
  exact absurd h (by decide)

theorem split_no_sep (c : Char) (a : List Char) (h : ∀ x ∈ a, x ≠ c) :
    split_on_char c a = [a] := by
  induction a with
  | nil => rfl
  | cons x xs ih =>
    simp only [split_on_char, ih (fun y hy => h y (List.mem_cons_of_mem _ hy))]
    rw [if_neg (h x (List.mem_cons_self _ _))]

theorem split_sep (c : Char) (a rest : List Char) (h : ∀ x ∈ a, x ≠ c) :
    split_on_char c (a ++ c :: rest) = a :: split_on_char c rest := by
  induction a with
  | nil =>
    simp [split_on_char]
  | cons x xs ih =>
    rw [List.cons_append]
    simp only [split_on_char, ih (fun y hy => h y (List.mem_cons_of_mem _ hy))]
    rw [if_neg (h x (List.mem_cons_self _ _))]

theorem days_in_month_le (y m : Nat) : days_in_month y m ≤ 31 := by
  rw [days_in_month]
  split
  · split <;> omega
  · split <;> omega

/-- Formatting a valid calendar date with `%Y-%m-%d` and reparsing it with
the fast-path format recovers the same date. -/
theorem parse_ymd_format (dt : PDate) (hv : valid_md dt.y dt.m dt.d = true)
    (hy : dt.y ≤ 9999) : parse_ymd (format_date dt) = some dt := by
  have hv' := hv
  simp only [valid_md, Bool.and_eq_true, decide_eq_true_eq] at hv'
  have hdm := days_in_month_le dt.y dt.m
  have hly : (nat_digits dt.y).length ≤ 4 :=
    nat_digits_length_le _ 4 (by omega) (by omega)
  have hlm : (nat_digits dt.m).length ≤ 2 :=
    nat_digits_length_le _ 2 (by omega) (by omega)
  have hld : (nat_digits dt.d).length ≤ 2 :=
    nat_digits_length_le _ 2 (by omega) (by omega)
  have hdata : (format_date dt).data =
      pad_num 4 dt.y ++ '-' :: (pad_num 2 dt.m ++ '-' :: pad_num 2 dt.d) := by
    simp [format_date]
  have hnd : ∀ (w n : Nat), ∀ x ∈ pad_num w n, x ≠ '-' :=
    fun w n x hx => isDigit_ne_of x (pad_num_all w n x hx)
  rw [parse_ymd, hdata, split_sep _ _ _ (hnd 4 dt.y), split_sep _ _ _ (hnd 2 dt.m),
    split_no_sep _ _ (hnd 2 dt.d)]
  simp only [all_digits_of _ (pad_num_ne_nil _ _) (pad_num_all _ _),
    pad_num_length 4 dt.y hly, pad_num_length 2 dt.m hlm, pad_num_length 2 dt.d hld,
    digits_to_nat_pad, hv, if_true]
  simp

/-- The per-record batch date parse also recovers a formatted valid date
(the fast path fires first). -/
theorem batch_parse_format (dt : PDate) (hv : valid_md dt.y dt.m dt.d = true)
    (hy : dt.y ≤ 9999) : batch_parse_date (format_date dt) = some dt := by
  rw [batch_parse_date, parse_ymd_format dt hv hy]

/-- Claim C5: parsing a 6-field standard header and reconstructing it via
the export format reproduces the same six fields in the same order
`isolate|subtype|segment|date|accession|clade`, with the date normalized to
`%Y-%m-%d` (or `Unknown` when absent); a record parsed from a 9-field
source is reconstructed in the same fixed standard order (accession and
clade un-swapped); and the `%Y-%m-%d` normalization is faithful: formatting
any valid date and reparsing it yields the same date. -/
theorem claim_c5_round_trip (h h₉ : String) (dt : PDate)
    (h6 : (split_header h).length = 6)
    (h9 : 9 ≤ (split_header h₉).length)
    (hv : valid_md dt.y dt.m dt.d = true) (hy : dt.y ≤ 9999) :
    reconstruct_header_fields (parse_header h)
        (batch_parse_date (parse_header h).raw_date) =
      [(split_header h).getD 0 ("Unknown"), (split_header h).getD 1 ("Unknown"),
       (split_header h).getD 2 ("Unknown"),
       (match batch_parse_date ((split_header h).getD 3 ("")) with
        | some d => format_date d
        | none => ("Unknown")),
       (split_header h).getD 4 ("Unknown"), (split_header h).getD 5 ("Unknown")] ∧
    reconstruct_header_fields (parse_header h₉)
        (batch_parse_date (parse_header h₉).raw_date) =
      [(split_header h₉).getD 0 ("Unknown"), (split_header h₉).getD 2 ("Unknown"),
       (split_header h₉).getD 3 ("Unknown"),
       (match batch_parse_date ((split_header h₉).getD 6 ("")) with
        | some d => format_date d
        | none => ("Unknown")),
       (split_header h₉).getD 8 ("Unknown"), (split_header h₉).getD 7 ("Unknown")] ∧
    parse_ymd (format_date dt) = some dt ∧
    batch_parse_date (format_date dt) = some dt := by
  have hn : ¬ 9 ≤ (split_header h).length := by omega
  refine ⟨?_, ?_, parse_ymd_format dt hv hy, batch_parse_format dt hv hy⟩
  · simp [reconstruct_header_fields, parse_header, hn]
  · simp [reconstruct_header_fields, parse_header, h9]

/-- Witness for C5: the spec's scenario header round-trips to the same six
fields, and the formatted date 2009-04-09 reparses to itself. -/
theorem claim_c5_round_trip_witness :
    reconstruct_header_fields
        (parse_header ("A/California/07/2009|A/_H1N1|HA|2009-04-09|EPI_ISL_29553|6B.1A"))
        (batch_parse_date
          (parse_header
            ("A/California/07/2009|A/_H1N1|HA|2009-04-09|EPI_ISL_29553|6B.1A")).raw_date) =
      [("A/California/07/2009"), ("A/_H1N1"), ("HA"), ("2009-04-09"),
       ("EPI_ISL_29553"), ("6B.1A")] ∧
    batch_parse_date (format_date ⟨2009, 4, 9⟩) = some ⟨2009, 4, 9⟩ := by
  have h := claim_c5_round_trip
    ("A/California/07/2009|A/_H1N1|HA|2009-04-09|EPI_ISL_29553|6B.1A")
    ("B/Victoria/2/1987|B|B|NA|Australia|Human|1987|V1A.3a.2|EPI_ISL_100123")
    ⟨2009, 4, 9⟩ (by decide) (by decide) (by decide) (by decide)
  exact ⟨by rw [h.1]; rfl, h.2.2.2⟩

end ViralFilter
